import Mathlib

/-!
Verification of the `lit-share` registry (`src/share.ts`).

The registry is a process-wide key/value store with per-key custom equality
functions, per-key listener sets, and per-key component subscriptions.
We embed JavaScript values as the inductive type `JSVal` (with a distinct
`nan` constructor, since `NaN !== NaN`, and object identity modelled by a
numeric id), and the four registry maps as insertion-ordered association
lists, matching the iteration order of JS `Map` and plain objects.

Listeners and custom equality functions may throw; we model them as Lean
functions returning `Except String _`.  `LitShare.set` returns the new
state together with the trace of observable effects (listener invocations
and component update requests, in order) and the exception it propagates,
if any.
-/

set_option autoImplicit false

/-- JavaScript values, as far as the registry can distinguish them.
`nan` is separate from `num` because `NaN !== NaN`; `obj` carries a
reference identity. -/
inductive JSVal where
  | undefined
  | null
  | nan
  | num (n : Int)
  | str (s : String)
  | boolean (b : Bool)
  | obj (objectId : Nat)
deriving DecidableEq, Repr

/-- JS strict equality `===` on the embedded values: `NaN === x` is always
false; otherwise primitive values compare by value and objects by identity. -/
def strictEq (a b : JSVal) : Bool :=
  if a = JSVal.nan ∨ b = JSVal.nan then false else decide (a = b)

/-- Whether a value is the NaN sentinel. -/
def isNaNv (a : JSVal) : Bool :=
  decide (a = JSVal.nan)

/-- `defaultHasChanged` from `share.ts`:
`value !== oldValue && (value === value || oldValue === oldValue)`. -/
def defaultHasChanged (value oldValue : JSVal) : Bool :=
  !strictEq value oldValue && (strictEq value value || strictEq oldValue oldValue)

/-- First-occurrence lookup in an association list (JS `Map.get` /
property read). -/
def lookupA {α β : Type} [DecidableEq α] : List (α × β) → α → Option β
  | [], _ => none
  | (k, v) :: rest, key => if k = key then some v else lookupA rest key

/-- JS `Map.set` / property assignment: overwrite the first entry with the
given key in place, or append a fresh entry at the end (insertion order). -/
def updA {α β : Type} [DecidableEq α] : List (α × β) → α → β → List (α × β)
  | [], key, v => [(key, v)]
  | (k, w) :: rest, key, v =>
      if k = key then (key, v) :: rest else (k, w) :: updA rest key v

/-- JS `Map.delete`: remove the first entry with the given key. -/
def delA {α β : Type} [DecidableEq α] : List (α × β) → α → List (α × β)
  | [], _ => []
  | (k, w) :: rest, key => if k = key then rest else (k, w) :: delA rest key

/-- A change listener: `(newValue, oldValue) -> void`, may throw.  `id`
models the function object's reference identity (JS `Set` deduplicates
listeners by it). -/
structure Listener where
  id : Nat
  run : JSVal → JSVal → Except String Unit

/-- A per-key equality function `(value, oldValue) -> boolean`, may throw. -/
def EqFn : Type := JSVal → JSVal → Except String Bool

/-- Observable side effects of a `set` call, in the order they happen. -/
inductive Event where
  | listenerCall (listenerId : Nat) (value oldValue : JSVal)
  | updateRequest (elementId : Nat) (target : String) (oldValueHint : JSVal)
deriving DecidableEq, Repr

/-- Whether an event is a component update request. -/
def Event.isUpdateRequest : Event → Bool
  | .updateRequest _ _ _ => true
  | _ => false

/-- The four static maps of class `LitShare`.  Component instances
(`ReactiveElement`) are identified by a numeric id. -/
structure ShareState where
  values : List (String × JSVal)
  requestUpdates : List (String × List (Nat × List String))
  hasChangedFunctions : List (String × EqFn)
  listeners : List (String × List Listener)

/-- The state at module load: all four maps empty. -/
def initState : ShareState :=
  ⟨[], [], [], []⟩

namespace LitShare

/-- `LitShare.findRequestUpdate`. -/
def findRequestUpdate (s : ShareState) (key : String) (eid : Nat) :
    Option (List String) :=
  match lookupA s.requestUpdates key with
  | some elementMap => lookupA elementMap eid
  | none => none

/-- `if (!target) target = key` — in JS both `undefined` and the empty
string are falsy. -/
def normTarget (key : String) : Option String → String
  | none => key
  | some "" => key
  | some t => t

/-- The effect of `register` on the key's element map: `elementMap.set
(element, [target])` when the element is new, `targets.push(target)` when
the target is new, no change when the pair is already present. -/
def registerTargets (eid : Nat) (target : String)
    (elementMap : List (Nat × List String)) : List (Nat × List String) :=
  match lookupA elementMap eid with
  | none => updA elementMap eid [target]
  | some targets =>
      if target ∈ targets then elementMap
      else updA elementMap eid (targets ++ [target])

/-- `LitShare.register`. -/
def register (s : ShareState) (key : String) (eid : Nat)
    (target? : Option String) : ShareState :=
  let target := normTarget key target?
  let elementMap := (lookupA s.requestUpdates key).getD []
  let newMap := updA s.requestUpdates key (registerTargets eid target elementMap)
  { s with requestUpdates := newMap }

/-- `LitShare.unregister`. -/
def unregister (s : ShareState) (key : String) (eid : Nat) : ShareState :=
  match lookupA s.requestUpdates key with
  | some elementMap =>
      { s with requestUpdates := updA s.requestUpdates key (delA elementMap eid) }
  | none => s

/-- `LitShare.unregisterElement`: `unregister` the element from every key. -/
def unregisterElement (s : ShareState) (eid : Nat) : ShareState :=
  { s with requestUpdates := s.requestUpdates.map (fun p => (p.1, delA p.2 eid)) }

/-- `LitShare.addListener` (the returned unsubscribe closure is
`removeListener key listener`). -/
def addListener (s : ShareState) (key : String) (l : Listener) : ShareState :=
  let cur := (lookupA s.listeners key).getD []
  let cur' := if cur.any (fun m => m.id = l.id) then cur else cur ++ [l]
  { s with listeners := updA s.listeners key cur' }

/-- `LitShare.removeListener`: `Set.delete` by listener identity. -/
def delListener : List Listener → Nat → List Listener
  | [], _ => []
  | l :: rest, lid => if l.id = lid then rest else l :: delListener rest lid

/-- `LitShare.removeListener`. -/
def removeListener (s : ShareState) (key : String) (lid : Nat) : ShareState :=
  match lookupA s.listeners key with
  | some ls => { s with listeners := updA s.listeners key (delListener ls lid) }
  | none => s

/-- `LitShare.get`: `key in values ? values[key] : defaultValue`.  An
omitted `defaultValue` is `undefined`. -/
def get (s : ShareState) (key : String) (defaultValue : JSVal) : JSVal :=
  match lookupA s.values key with
  | some v => v
  | none => defaultValue

/-- `this.values[key]` as read at the top of `set`: `undefined` when the
key is absent. -/
def oldOf (s : ShareState) (key : String) : JSVal :=
  (lookupA s.values key).getD JSVal.undefined

/-- `this.hasChangedFunctions.get(key) ?? defaultHasChanged`. -/
def hcFor (s : ShareState) (key : String) : EqFn :=
  (lookupA s.hasChangedFunctions key).getD
    (fun v o => Except.ok (defaultHasChanged v o))

/-- `this.listeners.get(key)`, empty when absent. -/
def listenersOf (s : ShareState) (key : String) : List Listener :=
  (lookupA s.listeners key).getD []

/-- Invoke listeners in order, stopping at the first that throws; returns
the invocation events and the propagated exception, if any. -/
def runListeners : List Listener → JSVal → JSVal → List Event × Option String
  | [], _, _ => ([], none)
  | l :: rest, v, o =>
      match l.run v o with
      | .error e => ([Event.listenerCall l.id v o], some e)
      | .ok _ =>
          let r := runListeners rest v o
          (Event.listenerCall l.id v o :: r.1, r.2)

/-- The per-element update requests, iterating the element map in order
and each element's target list in order. -/
def flatEvents : List (Nat × List String) → JSVal → List Event
  | [], _ => []
  | p :: rest, hint =>
      p.2.map (fun t => Event.updateRequest p.1 t hint) ++ flatEvents rest hint

/-- The update requests `LitShare.requestUpdate` dispatches: for every
subscribed `(element, target)` pair, `element.requestUpdate(target,
force ? undefined : oldValue)`. -/
def requestUpdateEvents (s : ShareState) (key : String) (oldValue : JSVal)
    (force : Bool) : List Event :=
  match lookupA s.requestUpdates key with
  | none => []
  | some elementMap =>
      flatEvents elementMap (if force then JSVal.undefined else oldValue)

/-- Result of a `set` call: the state afterwards, the effect trace, and
the exception that propagated to the caller (if any). -/
structure SetResult where
  state : ShareState
  events : List Event
  thrown : Option String

/-- The body of `set` after the change check passed: store the value,
notify listeners (a throw aborts the rest), then request updates. -/
def commit (s : ShareState) (key : String) (value oldValue : JSVal)
    (force : Bool) : SetResult :=
  let s1 : ShareState := { s with values := updA s.values key value }
  let r := runListeners (listenersOf s key) value oldValue
  match r.2 with
  | some e => ⟨s1, r.1, some e⟩
  | none => ⟨s1, r.1 ++ requestUpdateEvents s1 key oldValue force, none⟩

/-- `LitShare.set`. -/
def set (s : ShareState) (key : String) (value : JSVal) (force : Bool) :
    SetResult :=
  let oldValue := oldOf s key
  if force then commit s key value oldValue force
  else
    match hcFor s key value oldValue with
    | .error e => ⟨s, [], some e⟩
    | .ok false => ⟨s, [], none⟩
    | .ok true => commit s key value oldValue force

/-- Registration of a per-key custom equality function, as done by the
`share` decorator: `LitShare.hasChangedFunctions.set(shareKey, ...)`. -/
def setHasChanged (s : ShareState) (key : String) (f : EqFn) : ShareState :=
  { s with hasChangedFunctions := updA s.hasChangedFunctions key f }

end LitShare

/-- One call into the registry's public surface. -/
inductive Op where
  | register (key : String) (eid : Nat) (target? : Option String)
  | unregister (key : String) (eid : Nat)
  | unregisterElement (eid : Nat)
  | addListener (key : String) (l : Listener)
  | removeListener (key : String) (lid : Nat)
  | setHasChanged (key : String) (f : EqFn)
  | set (key : String) (value : JSVal) (force : Bool)
  | get (key : String) (d : JSVal)

/-- Effect of one call on the registry state (`get` is pure; `set`'s
events and exception are dropped here, its state kept even when a
listener threw, since the store happens before notification). -/
def applyOp (s : ShareState) : Op → ShareState
  | .register key eid t => LitShare.register s key eid t
  | .unregister key eid => LitShare.unregister s key eid
  | .unregisterElement eid => LitShare.unregisterElement s eid
  | .addListener key l => LitShare.addListener s key l
  | .removeListener key lid => LitShare.removeListener s key lid
  | .setHasChanged key f => LitShare.setHasChanged s key f
  | .set key v force => (LitShare.set s key v force).state
  | .get _ _ => s

/-- Run a sequence of calls from a starting state. -/
def applyOps (s : ShareState) (ops : List Op) : ShareState :=
  ops.foldl applyOp s

/-- Whether an operation is a `set` on the given key. -/
def touchesSet (key : String) : Op → Bool
  | .set k _ _ => decide (k = key)
  | _ => false

/-- Invariant of the subscriber table: every component entry under every
key maps to a non-empty list of property names. -/
def subscriberInv (s : ShareState) : Prop :=
  ∀ p ∈ s.requestUpdates, ∀ q ∈ p.2, q.2 ≠ []

/-! ### The `values` store with JavaScript plain-object semantics

`LitShare.values` is declared as `{}` — a plain object whose prototype is
`Object.prototype` — while `ShareState.values` above is a bare map.  The
two disagree on keys that collide with the prototype chain: `key in
values` and `values[key]` see inherited properties, and the assignment
`values[key] = value` for `key = "__proto__"` invokes the inherited
accessor setter instead of creating an own property.  The definitions
below embed the store with those semantics, to evaluate the program on
the keys where the bare map reading is unfaithful. -/

/-- The `Object.prototype` object itself, as read by
`values["__proto__"]` on a fresh store (reference identity). -/
def objectProtoVal : JSVal := JSVal.obj 899

/-- The own data properties of `Object.prototype`: all function objects,
modelled by their reference identities.  Its one accessor property,
`"__proto__"`, is handled separately in `protoRead` and `protoWrite`. -/
def objectProtoProps : List (String × JSVal) :=
  [("constructor", JSVal.obj 900),
   ("hasOwnProperty", JSVal.obj 901),
   ("isPrototypeOf", JSVal.obj 902),
   ("propertyIsEnumerable", JSVal.obj 903),
   ("toLocaleString", JSVal.obj 904),
   ("toString", JSVal.obj 905),
   ("valueOf", JSVal.obj 906),
   ("__defineGetter__", JSVal.obj 907),
   ("__defineSetter__", JSVal.obj 908),
   ("__lookupGetter__", JSVal.obj 909),
   ("__lookupSetter__", JSVal.obj 910)]

/-- `values[key]` on the plain object: own property first, else the
`"__proto__"` accessor (yielding the prototype object itself), else an
`Object.prototype` property, else `undefined`. -/
def protoRead (own : List (String × JSVal)) (key : String) : JSVal :=
  match lookupA own key with
  | some v => v
  | none =>
      if key = "__proto__" then objectProtoVal
      else
        match lookupA objectProtoProps key with
        | some v => v
        | none => JSVal.undefined

/-- `key in values` on the plain object: true for own properties and for
everything inherited from the prototype chain. -/
def protoHas (own : List (String × JSVal)) (key : String) : Bool :=
  (lookupA own key).isSome || decide (key = "__proto__")
    || (lookupA objectProtoProps key).isSome

/-- `values[key] = value` on the plain object: an ordinary key creates or
updates an own data property; `"__proto__"` invokes the inherited
accessor setter, which silently ignores primitive values and replaces
the object's prototype for object or `null` values.  Prototype
replacement leaves the fragment modelled here, so it is returned as
`none`; no theorem below performs such a write. -/
def protoWrite (own : List (String × JSVal)) (key : String) (value : JSVal) :
    Option (List (String × JSVal)) :=
  if key = "__proto__" then
    match value with
    | JSVal.obj _ => none
    | JSVal.null => none
    | _ => some own
  else
    some (updA own key value)

/-- `LitShare.get` over the faithful store:
`key in values ? values[key] : defaultValue`. -/
def getProto (own : List (String × JSVal)) (key : String) (d : JSVal) : JSVal :=
  if protoHas own key then protoRead own key else d

/-- `LitShare.set` over the faithful store, for a key with the default
equality and no subscribed components: read `oldValue` through the
prototype chain, run the change check, store through the chain, then
notify the listeners; yields the own properties afterwards, the event
trace and the propagated exception (`none` overall when the write
replaces the prototype, which is outside the modelled fragment). -/
def setProto (own : List (String × JSVal)) (ls : List Listener)
    (key : String) (value : JSVal) :
    Option (List (String × JSVal) × List Event × Option String) :=
  let oldValue := protoRead own key
  if defaultHasChanged value oldValue then
    match protoWrite own key value with
    | none => none
    | some own2 =>
        let r := LitShare.runListeners ls value oldValue
        some (own2, r.1, r.2)
  else
    some (own, [], none)

/-! ### Association-list lemmas -/

theorem lookupA_updA_self {α β : Type} [DecidableEq α] (l : List (α × β))
    (k : α) (v : β) : lookupA (updA l k v) k = some v := by
  induction l with
  | nil => simp [updA, lookupA]
  | cons p rest ih =>
    obtain ⟨k1, w⟩ := p
    by_cases h : k1 = k
    · simp [updA, h, lookupA]
    · simp [updA, h, lookupA, ih]

theorem lookupA_updA_ne {α β : Type} [DecidableEq α] (l : List (α × β))
    (k k1 : α) (v : β) (h : k1 ≠ k) :
    lookupA (updA l k1 v) k = lookupA l k := by
  have h4 : k ≠ k1 := fun hh => h hh.symm
  induction l with
  | nil => simp [updA, lookupA, h]
  | cons p rest ih =>
    obtain ⟨k2, w⟩ := p
    by_cases h2 : k2 = k1
    · subst h2
      simp [updA, lookupA, h]
    · simp [updA, h2, lookupA, ih]

theorem updA_lookupA_eq {α β : Type} [DecidableEq α] (l : List (α × β))
    (k : α) (v : β) (h : lookupA l k = some v) : updA l k v = l := by
  induction l with
  | nil => simp [lookupA] at h
  | cons p rest ih =>
    obtain ⟨k1, w⟩ := p
    by_cases h1 : k1 = k
    · subst h1
      simp [lookupA] at h
      simp [updA, h]
    · simp [lookupA, h1] at h
      simp [updA, h1, ih h]

theorem mem_updA {α β : Type} [DecidableEq α] (l : List (α × β))
    (k : α) (v : β) (p : α × β) (h : p ∈ updA l k v) : p ∈ l ∨ p = (k, v) := by
  induction l with
  | nil => simp [updA] at h; simp [h]
  | cons q rest ih =>
    obtain ⟨k1, w⟩ := q
    by_cases h1 : k1 = k
    · simp [updA, h1] at h
      rcases h with h | h
      · right; simp [h]
      · left; simp [h]
    · simp [updA, h1] at h
      rcases h with h | h
      · left; simp [h]
      · rcases ih h with h2 | h2
        · left; simp [h2]
        · right; exact h2

theorem mem_delA {α β : Type} [DecidableEq α] (l : List (α × β))
    (k : α) (p : α × β) (h : p ∈ delA l k) : p ∈ l := by
  induction l with
  | nil => simp [delA] at h
  | cons q rest ih =>
    obtain ⟨k1, w⟩ := q
    by_cases h1 : k1 = k
    · simp [delA, h1] at h
      simp [h]
    · simp [delA, h1] at h
      rcases h with h | h
      · simp [h]
      · simp [ih h]

theorem lookupA_mem {α β : Type} [DecidableEq α] (l : List (α × β))
    (k : α) (v : β) (h : lookupA l k = some v) : (k, v) ∈ l := by
  induction l with
  | nil => simp [lookupA] at h
  | cons q rest ih =>
    obtain ⟨k1, w⟩ := q
    by_cases h1 : k1 = k
    · subst h1
      simp [lookupA] at h
      simp [h]
    · simp [lookupA, h1] at h
      simp [ih h]

/-! ### Value and default-equality lemmas -/

theorem strictEq_eq_true_iff (a b : JSVal) :
    strictEq a b = true ↔ a = b ∧ a ≠ JSVal.nan := by
  by_cases ha : a = JSVal.nan <;> by_cases hb : b = JSVal.nan <;>
    simp [strictEq, ha, hb]

theorem defaultHasChanged_false (v o : JSVal)
    (h : defaultHasChanged v o = false) : v = o := by
  by_cases hv : v = JSVal.nan <;> by_cases ho : o = JSVal.nan
  · rw [hv, ho]
  · simp [defaultHasChanged, strictEq, hv, ho] at h
  · simp [defaultHasChanged, strictEq, hv, ho] at h
  · simp [defaultHasChanged, strictEq, hv, ho] at h
    exact h

/-! ### Listener-run and update-event lemmas -/

theorem runListeners_ok (ls : List Listener) (v o : JSVal)
    (h : (LitShare.runListeners ls v o).2 = none) :
    (LitShare.runListeners ls v o).1 =
      ls.map (fun l => Event.listenerCall l.id v o) := by
  induction ls with
  | nil => simp [LitShare.runListeners]
  | cons l rest ih =>
    cases hr : l.run v o with
    | error e => simp [LitShare.runListeners, hr] at h
    | ok u =>
      simp only [LitShare.runListeners, hr] at h ⊢
      simp [ih h]

theorem runListeners_error (ls : List Listener) (v o : JSVal) (e : String)
    (h : (LitShare.runListeners ls v o).2 = some e) :
    ∃ pre t post, ls = pre ++ t :: post ∧
      (∀ p ∈ pre, ∃ u, p.run v o = Except.ok u) ∧
      t.run v o = Except.error e ∧
      (LitShare.runListeners ls v o).1 =
        (pre ++ [t]).map (fun q => Event.listenerCall q.id v o) := by
  induction ls with
  | nil => simp [LitShare.runListeners] at h
  | cons l rest ih =>
    cases hr : l.run v o with
    | error e1 =>
      have hrun : LitShare.runListeners (l :: rest) v o
          = ([Event.listenerCall l.id v o], some e1) := by
        simp [LitShare.runListeners, hr]
      rw [hrun] at h
      have he : e1 = e := Option.some.inj h
      subst he
      exact ⟨[], l, rest, rfl, by simp, hr, by rw [hrun]; simp⟩
    | ok u =>
      have hrun : LitShare.runListeners (l :: rest) v o
          = (Event.listenerCall l.id v o :: (LitShare.runListeners rest v o).1,
             (LitShare.runListeners rest v o).2) := by
        simp [LitShare.runListeners, hr]
      rw [hrun] at h
      obtain ⟨pre, t, post, h1, h2, h3, h4⟩ := ih h
      refine ⟨l :: pre, t, post, by simp [h1], ?_, h3, ?_⟩
      · intro p hp
        rcases List.mem_cons.mp hp with h5 | h5
        · exact ⟨u, by rw [h5, hr]⟩
        · exact h2 p h5
      · rw [hrun]
        simp [h4]

theorem flatEvents_isUpdate (em : List (Nat × List String)) (hint : JSVal)
    (ev : Event) (h : ev ∈ LitShare.flatEvents em hint) :
    ev.isUpdateRequest = true := by
  induction em with
  | nil => simp [LitShare.flatEvents] at h
  | cons p rest ih =>
    simp only [LitShare.flatEvents, List.mem_append, List.mem_map] at h
    rcases h with ⟨t, ht, h2⟩ | h
    · rw [← h2]; rfl
    · exact ih h

theorem requestUpdateEvents_isUpdate (s : ShareState) (key : String)
    (o : JSVal) (force : Bool) (ev : Event)
    (h : ev ∈ LitShare.requestUpdateEvents s key o force) :
    ev.isUpdateRequest = true := by
  unfold LitShare.requestUpdateEvents at h
  cases hl : lookupA s.requestUpdates key with
  | none => rw [hl] at h; simp at h
  | some em =>
    rw [hl] at h
    exact flatEvents_isUpdate em _ ev h

/-! ### Structural lemmas about `commit` and `set` -/

theorem commit_state (s : ShareState) (key : String) (v o : JSVal)
    (force : Bool) :
    (LitShare.commit s key v o force).state
      = { s with values := updA s.values key v } := by
  simp only [LitShare.commit]
  split <;> rfl

theorem commit_thrown (s : ShareState) (key : String) (v o : JSVal)
    (force : Bool) :
    (LitShare.commit s key v o force).thrown
      = (LitShare.runListeners (LitShare.listenersOf s key) v o).2 := by
  simp only [LitShare.commit]
  split
  · rename_i heq
    rw [heq]
  · rename_i heq
    rw [heq]

theorem commit_events_throw (s : ShareState) (key : String) (v o : JSVal)
    (force : Bool) (e : String)
    (h : (LitShare.runListeners (LitShare.listenersOf s key) v o).2 = some e) :
    (LitShare.commit s key v o force).events
      = (LitShare.runListeners (LitShare.listenersOf s key) v o).1 := by
  simp only [LitShare.commit]
  split
  · rfl
  · rename_i heq
    rw [heq] at h
    exact absurd h (by simp)

theorem commit_events_ok (s : ShareState) (key : String) (v o : JSVal)
    (force : Bool)
    (h : (LitShare.runListeners (LitShare.listenersOf s key) v o).2 = none) :
    (LitShare.commit s key v o force).events
      = (LitShare.runListeners (LitShare.listenersOf s key) v o).1
        ++ LitShare.requestUpdateEvents { s with values := updA s.values key v }
             key o force := by
  simp only [LitShare.commit]
  split
  · rename_i heq
    rw [heq] at h
    exact absurd h (by simp)
  · rfl

theorem set_false_red (s : ShareState) (key : String) (v : JSVal) :
    LitShare.set s key v false
      = match LitShare.hcFor s key v (LitShare.oldOf s key) with
        | .error e => ⟨s, [], some e⟩
        | .ok false => ⟨s, [], none⟩
        | .ok true => LitShare.commit s key v (LitShare.oldOf s key) false := rfl

theorem set_true_red (s : ShareState) (key : String) (v : JSVal) :
    LitShare.set s key v true
      = LitShare.commit s key v (LitShare.oldOf s key) true := rfl

theorem set_state_cases (s : ShareState) (key : String) (v : JSVal)
    (force : Bool) :
    (LitShare.set s key v force).state = s ∨
    (LitShare.set s key v force).state
      = { s with values := updA s.values key v } := by
  cases force with
  | true =>
    right
    rw [set_true_red]
    exact commit_state s key v (LitShare.oldOf s key) true
  | false =>
    rw [set_false_red]
    cases LitShare.hcFor s key v (LitShare.oldOf s key) with
    | error e => left; rfl
    | ok b =>
      cases b with
      | false => left; rfl
      | true =>
        right
        exact commit_state s key v (LitShare.oldOf s key) false

theorem set_state_requestUpdates (s : ShareState) (key : String) (v : JSVal)
    (force : Bool) :
    (LitShare.set s key v force).state.requestUpdates = s.requestUpdates := by
  rcases set_state_cases s key v force with h | h <;> rw [h]

/-! ### Register and per-operation helper lemmas -/

theorem updA_updA_self {α β : Type} [DecidableEq α] (l : List (α × β))
    (k : α) (v : β) : updA (updA l k v) k v = updA l k v :=
  updA_lookupA_eq _ _ _ (lookupA_updA_self l k v)

theorem registerTargets_self (eid : Nat) (tg : String)
    (em : List (Nat × List String)) :
    LitShare.registerTargets eid tg (LitShare.registerTargets eid tg em)
      = LitShare.registerTargets eid tg em := by
  cases hl : lookupA em eid with
  | none =>
    have h1 : LitShare.registerTargets eid tg em = updA em eid [tg] := by
      unfold LitShare.registerTargets
      rw [hl]
    rw [h1]
    unfold LitShare.registerTargets
    rw [lookupA_updA_self]
    simp
  | some ts =>
    by_cases hm : tg ∈ ts
    · have h1 : LitShare.registerTargets eid tg em = em := by
        unfold LitShare.registerTargets
        rw [hl]
        simp [hm]
      rw [h1]
      exact h1
    · have h1 : LitShare.registerTargets eid tg em
          = updA em eid (ts ++ [tg]) := by
        unfold LitShare.registerTargets
        rw [hl]
        simp [hm]
      rw [h1]
      unfold LitShare.registerTargets
      rw [lookupA_updA_self]
      simp

theorem set_values_ne (s : ShareState) (k : String) (v : JSVal) (f : Bool)
    (key : String) (h : k ≠ key) :
    lookupA (LitShare.set s k v f).state.values key = lookupA s.values key := by
  rcases set_state_cases s k v f with h1 | h1 <;> rw [h1]
  exact lookupA_updA_ne s.values key k v h

theorem applyOp_values_not_set (s : ShareState) (key : String) (op : Op)
    (h : touchesSet key op = false) :
    lookupA (applyOp s op).values key = lookupA s.values key := by
  cases op with
  | register k e t => rfl
  | unregister k e =>
    show lookupA (LitShare.unregister s k e).values key = _
    unfold LitShare.unregister
    split <;> rfl
  | unregisterElement e => rfl
  | addListener k l => rfl
  | removeListener k lid =>
    show lookupA (LitShare.removeListener s k lid).values key = _
    unfold LitShare.removeListener
    split <;> rfl
  | setHasChanged k f => rfl
  | set k v f =>
    have hk : k ≠ key := by simpa [touchesSet] using h
    exact set_values_ne s k v f key hk
  | get k d => rfl

theorem get_undefined_eq_oldOf (s : ShareState) (key : String) :
    LitShare.get s key JSVal.undefined = LitShare.oldOf s key := by
  unfold LitShare.get LitShare.oldOf
  cases lookupA s.values key <;> rfl

theorem set_noop_of_ok_false (s : ShareState) (key : String) (v : JSVal)
    (h : LitShare.hcFor s key v (LitShare.oldOf s key) = Except.ok false) :
    LitShare.set s key v false = ⟨s, [], none⟩ := by
  rw [set_false_red, h]

theorem commit_throw (s : ShareState) (key : String) (v o : JSVal)
    (force : Bool) (e : String)
    (h : (LitShare.commit s key v o force).thrown = some e) :
    ∃ pre t post, LitShare.listenersOf s key = pre ++ t :: post ∧
      (∀ p ∈ pre, ∃ u, p.run v o = Except.ok u) ∧
      t.run v o = Except.error e ∧
      (LitShare.commit s key v o force).events =
        (pre ++ [t]).map (fun q => Event.listenerCall q.id v o) := by
  rw [commit_thrown] at h
  obtain ⟨pre, t, post, h1, h2, h3, h4⟩ := runListeners_error _ v o e h
  exact ⟨pre, t, post, h1, h2, h3,
    by rw [commit_events_throw s key v o force e h, h4]⟩

theorem getD_elementMap_inv (s : ShareState) (key : String)
    (h : subscriberInv s) :
    ∀ q ∈ (lookupA s.requestUpdates key).getD [], q.2 ≠ [] := by
  cases hl : lookupA s.requestUpdates key with
  | none => simp
  | some em =>
    intro q hq
    exact h (key, em) (lookupA_mem _ _ _ hl) q (by simpa using hq)

theorem registerTargets_inv (eid : Nat) (tg : String)
    (em : List (Nat × List String)) (h : ∀ q ∈ em, q.2 ≠ []) :
    ∀ q ∈ LitShare.registerTargets eid tg em, q.2 ≠ [] := by
  intro q hq
  unfold LitShare.registerTargets at hq
  cases hl : lookupA em eid with
  | none =>
    simp only [hl] at hq
    rcases mem_updA _ _ _ _ hq with h1 | h1
    · exact h q h1
    · rw [h1]; simp
  | some ts =>
    simp only [hl] at hq
    by_cases hm : tg ∈ ts
    · rw [if_pos hm] at hq
      exact h q hq
    · rw [if_neg hm] at hq
      rcases mem_updA _ _ _ _ hq with h1 | h1
      · exact h q h1
      · rw [h1]; simp

/-! ### Claim theorems -/

/-- On the bare-map reading of the store (the spec's intended semantics,
prototype chain dropped): for every key `k` on which `set` has never
been called, and for every default `d`, `get(k, d)` returns `d`,
whatever other registry operations have run.  On the program itself
this fails for keys colliding with `Object.prototype` — see
`get_default_of_unset_key_bug`. -/
theorem get_default_of_unset_key (ops : List Op) (key : String) (d : JSVal)
    (h : ∀ op ∈ ops, touchesSet key op = false) :
    LitShare.get (applyOps initState ops) key d = d := by
  have main : ∀ (l : List Op) (s : ShareState),
      (∀ op ∈ l, touchesSet key op = false) →
      lookupA s.values key = none →
      lookupA (applyOps s l).values key = none := by
    intro l
    induction l with
    | nil => intro s _ hs; exact hs
    | cons op rest ih =>
      intro s hall hs
      have h1 : touchesSet key op = false := hall op (List.mem_cons_self op rest)
      have h2 : ∀ o ∈ rest, touchesSet key o = false :=
        fun o ho => hall o (List.mem_cons_of_mem op ho)
      have h3 : lookupA (applyOp s op).values key = none := by
        rw [applyOp_values_not_set s key op h1]
        exact hs
      exact ih (applyOp s op) h2 h3
  have hnone := main ops initState h rfl
  unfold LitShare.get
  rw [hnone]

/-- Bare-map instance: after registering a component for `"a"` and
setting only `"b"`, `get("a", 7)` returns `7`. -/
theorem get_default_of_unset_key_witness :
    (∀ op ∈ [Op.register "a" 1 none, Op.set "b" (JSVal.num 5) false],
        touchesSet "a" op = false)
    ∧ LitShare.get
        (applyOps initState [Op.register "a" 1 none, Op.set "b" (JSVal.num 5) false])
        "a" (JSVal.num 7) = JSVal.num 7 :=
  ⟨by decide, get_default_of_unset_key
      [Op.register "a" 1 none, Op.set "b" (JSVal.num 5) false]
      "a" (JSVal.num 7) (by decide)⟩

/-- On the bare-map reading of the store: with no custom equality
function registered for `key` and no force flag, `get(k)` right after
`set(k, v)` returns exactly `v`.  On the program itself this fails for
`k = "__proto__"`, whose write is swallowed by the inherited accessor
setter — see `get_after_set_bug`. -/
theorem get_after_set (s : ShareState) (key : String) (v : JSVal)
    (h : lookupA s.hasChangedFunctions key = none) :
    LitShare.get (LitShare.set s key v false).state key JSVal.undefined = v := by
  have happ : LitShare.hcFor s key v (LitShare.oldOf s key)
      = Except.ok (defaultHasChanged v (LitShare.oldOf s key)) := by
    unfold LitShare.hcFor
    rw [h]
    rfl
  rw [set_false_red, happ]
  cases hchg : defaultHasChanged v (LitShare.oldOf s key) with
  | false =>
    have hv : v = LitShare.oldOf s key := defaultHasChanged_false v _ hchg
    show LitShare.get s key JSVal.undefined = v
    rw [get_undefined_eq_oldOf]
    exact hv.symm
  | true =>
    show LitShare.get (LitShare.commit s key v (LitShare.oldOf s key) false).state
        key JSVal.undefined = v
    rw [commit_state]
    unfold LitShare.get
    rw [show ({ s with values := updA s.values key v } : ShareState).values
        = updA s.values key v from rfl]
    rw [lookupA_updA_self]

/-- Bare-map instance: `get` after `set("k", 1)` on the empty registry
returns `1`. -/
theorem get_after_set_witness :
    lookupA initState.hasChangedFunctions "k" = none
    ∧ LitShare.get (LitShare.set initState "k" (JSVal.num 1) false).state
        "k" JSVal.undefined = JSVal.num 1 :=
  ⟨rfl, get_after_set initState "k" (JSVal.num 1) rfl⟩

/-- Claim C3: the default equality reports a change iff the values are
not strictly identical and not both NaN; hence on a registry holding
`NaN` at `"k"` with one listener, `set("k", NaN)` fires no events while
`set("k", 1)` fires the listener. -/
theorem defaultHasChanged_spec :
    (∀ v o, defaultHasChanged v o
        = (!strictEq v o && !(isNaNv v && isNaNv o)))
    ∧ (LitShare.set
        (LitShare.set (LitShare.addListener initState "k"
            ⟨0, fun _ _ => Except.ok ()⟩) "k" JSVal.nan false).state
        "k" JSVal.nan false).events = []
    ∧ (LitShare.set
        (LitShare.set (LitShare.addListener initState "k"
            ⟨0, fun _ _ => Except.ok ()⟩) "k" JSVal.nan false).state
        "k" (JSVal.num 1) false).events
      = [Event.listenerCall 0 (JSVal.num 1) JSVal.nan] := by
  refine ⟨?_, rfl, rfl⟩
  intro v o
  by_cases hv : v = JSVal.nan <;> by_cases ho : o = JSVal.nan <;>
    simp [defaultHasChanged, strictEq, isNaNv, hv, ho]

/-- Claim C4: when `force` is not set and the equality function in effect
for the key reports no change, `set` is a complete no-op: same state (all
four maps), no events, no exception. -/
theorem set_unchanged_noop (s : ShareState) (key : String) (v : JSVal)
    (h : LitShare.hcFor s key v (LitShare.oldOf s key) = Except.ok false) :
    LitShare.set s key v false = ⟨s, [], none⟩ :=
  set_noop_of_ok_false s key v h

/-- Witness for C4: re-setting `"k"` to its stored value `2` is a no-op. -/
theorem set_unchanged_noop_witness :
    LitShare.hcFor ⟨[("k", JSVal.num 2)], [], [], []⟩ "k" (JSVal.num 2)
        (LitShare.oldOf ⟨[("k", JSVal.num 2)], [], [], []⟩ "k") = Except.ok false
    ∧ LitShare.set ⟨[("k", JSVal.num 2)], [], [], []⟩ "k" (JSVal.num 2) false
        = ⟨⟨[("k", JSVal.num 2)], [], [], []⟩, [], none⟩ :=
  ⟨rfl, set_unchanged_noop ⟨[("k", JSVal.num 2)], [], [], []⟩ "k"
      (JSVal.num 2) rfl⟩

/-- Claim C5: in an accepted `set(k, v)` call whose listeners all return,
every listener registered for `k` is invoked with `(value, oldValue)`
before any component update request is dispatched: the event trace is
exactly the listener calls, in registration order, followed by only
update-request events. -/
theorem set_listeners_before_updates (s : ShareState) (key : String)
    (v : JSVal) (force : Bool)
    (hacc : force = true
      ∨ LitShare.hcFor s key v (LitShare.oldOf s key) = Except.ok true)
    (hok : (LitShare.set s key v force).thrown = none) :
    ∃ uevs, (LitShare.set s key v force).events =
        (LitShare.listenersOf s key).map
          (fun l => Event.listenerCall l.id v (LitShare.oldOf s key)) ++ uevs
      ∧ ∀ ev ∈ uevs, ev.isUpdateRequest = true := by
  have hset : LitShare.set s key v force
      = LitShare.commit s key v (LitShare.oldOf s key) force := by
    cases force with
    | true => rfl
    | false =>
      rcases hacc with hacc | hacc
      · exact absurd hacc (by simp)
      · rw [set_false_red, hacc]
  rw [hset] at hok ⊢
  rw [commit_thrown] at hok
  refine ⟨LitShare.requestUpdateEvents { s with values := updA s.values key v }
      key (LitShare.oldOf s key) force, ?_, ?_⟩
  · rw [commit_events_ok s key v _ force hok]
    rw [runListeners_ok _ _ _ hok]
  · intro ev hev
    exact requestUpdateEvents_isUpdate _ _ _ _ ev hev

/-- Witness for C5: with one listener and one registered component on
`"k"`, `set("k", 1)` fires the listener first, then only update
requests. -/
theorem set_listeners_before_updates_witness :
    ((false : Bool) = true
      ∨ LitShare.hcFor
          (LitShare.register (LitShare.addListener initState "k"
            ⟨0, fun _ _ => Except.ok ()⟩) "k" 5 none)
          "k" (JSVal.num 1)
          (LitShare.oldOf
            (LitShare.register (LitShare.addListener initState "k"
              ⟨0, fun _ _ => Except.ok ()⟩) "k" 5 none) "k") = Except.ok true)
    ∧ (LitShare.set
        (LitShare.register (LitShare.addListener initState "k"
          ⟨0, fun _ _ => Except.ok ()⟩) "k" 5 none)
        "k" (JSVal.num 1) false).thrown = none
    ∧ ∃ uevs, (LitShare.set
        (LitShare.register (LitShare.addListener initState "k"
          ⟨0, fun _ _ => Except.ok ()⟩) "k" 5 none)
        "k" (JSVal.num 1) false).events =
        (LitShare.listenersOf
          (LitShare.register (LitShare.addListener initState "k"
            ⟨0, fun _ _ => Except.ok ()⟩) "k" 5 none) "k").map
          (fun l => Event.listenerCall l.id (JSVal.num 1)
            (LitShare.oldOf
              (LitShare.register (LitShare.addListener initState "k"
                ⟨0, fun _ _ => Except.ok ()⟩) "k" 5 none) "k")) ++ uevs
      ∧ ∀ ev ∈ uevs, ev.isUpdateRequest = true :=
  ⟨Or.inr rfl, rfl,
    set_listeners_before_updates
      (LitShare.register (LitShare.addListener initState "k"
        ⟨0, fun _ _ => Except.ok ()⟩) "k" 5 none)
      "k" (JSVal.num 1) false (Or.inr rfl) rfl⟩

/-- Claim C6: when a listener or equality function invoked during
`set(k, v)` throws, the exception surfaces in the call's result, no
component update request is dispatched, and the effects are cut short:
either the equality function threw (no event at all, state untouched) or
the trace is exactly the listeners up to and including the first thrower. -/
theorem set_throw_aborts (s : ShareState) (key : String) (v : JSVal)
    (force : Bool) (e : String)
    (h : (LitShare.set s key v force).thrown = some e) :
    (∀ ev ∈ (LitShare.set s key v force).events, ev.isUpdateRequest = false)
    ∧ ((LitShare.hcFor s key v (LitShare.oldOf s key) = Except.error e ∧
          (LitShare.set s key v force).events = [] ∧
          (LitShare.set s key v force).state = s ∧ force = false)
       ∨ (∃ pre t post, LitShare.listenersOf s key = pre ++ t :: post ∧
            (∀ p ∈ pre, ∃ u, p.run v (LitShare.oldOf s key) = Except.ok u) ∧
            t.run v (LitShare.oldOf s key) = Except.error e ∧
            (LitShare.set s key v force).events =
              (pre ++ [t]).map
                (fun q => Event.listenerCall q.id v (LitShare.oldOf s key)))) := by
  have main : LitShare.set s key v force
        = LitShare.commit s key v (LitShare.oldOf s key) force →
      (∀ ev ∈ (LitShare.set s key v force).events, ev.isUpdateRequest = false)
      ∧ ((LitShare.hcFor s key v (LitShare.oldOf s key) = Except.error e ∧
            (LitShare.set s key v force).events = [] ∧
            (LitShare.set s key v force).state = s ∧ force = false)
         ∨ (∃ pre t post, LitShare.listenersOf s key = pre ++ t :: post ∧
              (∀ p ∈ pre, ∃ u, p.run v (LitShare.oldOf s key) = Except.ok u) ∧
              t.run v (LitShare.oldOf s key) = Except.error e ∧
              (LitShare.set s key v force).events =
                (pre ++ [t]).map
                  (fun q => Event.listenerCall q.id v (LitShare.oldOf s key)))) := by
    intro hset
    rw [hset] at h
    obtain ⟨pre, t, post, h1, h2, h3, h4⟩ := commit_throw s key v _ force e h
    constructor
    · intro ev hev
      rw [hset, h4] at hev
      obtain ⟨q, hq, hqe⟩ := List.mem_map.mp hev
      rw [← hqe]
      rfl
    · right
      exact ⟨pre, t, post, h1, h2, h3, by rw [hset, h4]⟩
  cases force with
  | true => exact main rfl
  | false =>
    obtain ⟨r, hhc⟩ : ∃ r, LitShare.hcFor s key v (LitShare.oldOf s key) = r :=
      ⟨_, rfl⟩
    cases r with
    | error e1 =>
      have hset : LitShare.set s key v false
          = ⟨s, [], some e1⟩ := by rw [set_false_red, hhc]
      rw [hset] at h
      have he : e1 = e := Option.some.inj h
      subst he
      constructor
      · intro ev hev
        rw [hset] at hev
        simp at hev
      · left
        exact ⟨hhc, by rw [hset], by rw [hset], rfl⟩
    | ok b =>
      cases b with
      | false =>
        have hset : LitShare.set s key v false
            = ⟨s, [], none⟩ := by rw [set_false_red, hhc]
        rw [hset] at h
        simp at h
      | true =>
        apply main
        rw [set_false_red, hhc]

/-- Witness for C6: a listener that throws `"boom"` on `"k"` makes
`set("k", 1)` propagate `"boom"` and dispatch no update request. -/
theorem set_throw_aborts_witness :
    (LitShare.set
        (LitShare.addListener initState "k" ⟨0, fun _ _ => Except.error "boom"⟩)
        "k" (JSVal.num 1) false).thrown = some "boom"
    ∧ ∀ ev ∈ (LitShare.set
        (LitShare.addListener initState "k" ⟨0, fun _ _ => Except.error "boom"⟩)
        "k" (JSVal.num 1) false).events, ev.isUpdateRequest = false :=
  ⟨rfl,
    (set_throw_aborts
      (LitShare.addListener initState "k" ⟨0, fun _ _ => Except.error "boom"⟩)
      "k" (JSVal.num 1) false "boom" rfl).1⟩

/-- Claim C7: every registry operation preserves the subscriber-table
invariant that each component entry under each key maps to a non-empty
property-name list. -/
theorem applyOp_subscriberInv (s : ShareState) (op : Op)
    (h : subscriberInv s) : subscriberInv (applyOp s op) := by
  cases op with
  | register key eid t? =>
    intro p hp q hq
    simp only [applyOp, LitShare.register] at hp
    rcases mem_updA _ _ _ _ hp with h1 | h1
    · exact h p h1 q hq
    · subst h1
      exact registerTargets_inv eid (LitShare.normTarget key t?) _
        (getD_elementMap_inv s key h) q hq
  | unregister key eid =>
    intro p hp q hq
    simp only [applyOp, LitShare.unregister] at hp
    cases hl : lookupA s.requestUpdates key with
    | none =>
      simp only [hl] at hp
      exact h p hp q hq
    | some em =>
      simp only [hl] at hp
      rcases mem_updA _ _ _ _ hp with h1 | h1
      · exact h p h1 q hq
      · subst h1
        exact h (key, em) (lookupA_mem _ _ _ hl) q (mem_delA _ _ _ hq)
  | unregisterElement eid =>
    intro p hp q hq
    simp only [applyOp, LitShare.unregisterElement] at hp
    obtain ⟨r, hr, hre⟩ := List.mem_map.mp hp
    subst hre
    exact h r hr q (mem_delA _ _ _ hq)
  | addListener key l =>
    intro p hp q hq
    exact h p hp q hq
  | removeListener key lid =>
    intro p hp q hq
    simp only [applyOp, LitShare.removeListener] at hp
    cases hl : lookupA s.listeners key with
    | none =>
      simp only [hl] at hp
      exact h p hp q hq
    | some ls =>
      simp only [hl] at hp
      exact h p hp q hq
  | setHasChanged key f =>
    intro p hp q hq
    exact h p hp q hq
  | set key v f =>
    intro p hp q hq
    simp only [applyOp] at hp
    rw [set_state_requestUpdates] at hp
    exact h p hp q hq
  | get key d =>
    intro p hp q hq
    exact h p hp q hq

/-- Witness for C7: the empty registry satisfies the invariant and still
does after a `register` call. -/
theorem applyOp_subscriberInv_witness :
    subscriberInv initState
    ∧ subscriberInv (applyOp initState (Op.register "k" 0 none)) :=
  ⟨by intro p hp q hq; simp [initState] at hp,
    applyOp_subscriberInv initState (Op.register "k" 0 none)
      (by intro p hp q hq; simp [initState] at hp)⟩

/-- Claim C8: `register` is idempotent — registering the same
(key, component, property) triple twice leaves the subscriber table
exactly as one call does, and the call is total. -/
theorem register_idempotent (s : ShareState) (key : String) (eid : Nat)
    (t? : Option String) :
    LitShare.register (LitShare.register s key eid t?) key eid t?
      = LitShare.register s key eid t? := by
  simp only [LitShare.register]
  rw [lookupA_updA_self]
  simp only [Option.getD_some]
  rw [registerTargets_self, updA_updA_self]

/-- Claim C9: registering with the empty string as property name behaves
exactly like omitting the property — both subscribe under the key itself,
because the empty string is falsy in `if (!target) target = key`. -/
theorem register_blank_target (s : ShareState) (key : String) (eid : Nat) :
    LitShare.register s key eid (some "") = LitShare.register s key eid none :=
  rfl

/-- On the bare-map reading of the store: on a key never successfully
set and without a custom equality function, `set(k, undefined)` is a
no-op and `get(k, d)` still returns `d`.  On the program itself this
fails for keys colliding with `Object.prototype`, whose inherited value
makes the change check pass — see `set_undefined_unset_noop_bug`. -/
theorem set_undefined_unset_noop (s : ShareState) (key : String) (d : JSVal)
    (h1 : lookupA s.values key = none)
    (h2 : lookupA s.hasChangedFunctions key = none) :
    LitShare.set s key JSVal.undefined false = ⟨s, [], none⟩
    ∧ LitShare.get s key d = d := by
  constructor
  · apply set_noop_of_ok_false
    have hold : LitShare.oldOf s key = JSVal.undefined := by
      unfold LitShare.oldOf
      rw [h1]
      rfl
    unfold LitShare.hcFor
    rw [h2, hold]
    rfl
  · unfold LitShare.get
    rw [h1]

/-- Bare-map instance: `set("k", undefined)` on the empty registry is a
no-op and `get("k", 3)` still returns `3`. -/
theorem set_undefined_unset_noop_witness :
    lookupA initState.values "k" = none
    ∧ lookupA initState.hasChangedFunctions "k" = none
    ∧ (LitShare.set initState "k" JSVal.undefined false = ⟨initState, [], none⟩
       ∧ LitShare.get initState "k" (JSVal.num 3) = JSVal.num 3) :=
  ⟨rfl, rfl, set_undefined_unset_noop initState "k" (JSVal.num 3) rfl rfl⟩

/-! ### Evaluating the program on its prototype-chain keys -/

/-- Claim C1 fails on the program as written: with `set` never called,
`get("toString", d)` evaluates the code's `key in values` /
`values[key]` against the real plain object and returns the function
inherited from `Object.prototype` — for every default `d`, never `d`
itself (here `d = 7`). -/
theorem get_default_of_unset_key_bug :
    (∀ d, getProto [] "toString" d = JSVal.obj 905)
    ∧ JSVal.obj 905 ≠ JSVal.num 7 :=
  ⟨fun _ => rfl, by decide⟩

/-- Claim C2 fails on the program as written: `set("__proto__", 5)`
passes the change check (the old value reads as `Object.prototype`) and
fires the listener with new value `5`, but the assignment is swallowed
by the inherited `__proto__` setter, so the own properties stay empty
and `get("__proto__")` still returns `Object.prototype`, not `5`. -/
theorem get_after_set_bug :
    setProto [] [⟨0, fun _ _ => Except.ok ()⟩] "__proto__" (JSVal.num 5)
      = some ([], [Event.listenerCall 0 (JSVal.num 5) objectProtoVal], none)
    ∧ getProto [] "__proto__" JSVal.undefined = objectProtoVal
    ∧ objectProtoVal ≠ JSVal.num 5 :=
  ⟨rfl, rfl, by decide⟩

/-- Claim C10 fails on the program as written: on never-set `"toString"`
the old value reads as the inherited function, so `defaultHasChanged
(undefined, fn)` is true and `set("toString", undefined)` is accepted —
an own property is created and the listener fires — and
`get("toString", 3)` afterwards returns `undefined`, not `3`. -/
theorem set_undefined_unset_noop_bug :
    setProto [] [⟨0, fun _ _ => Except.ok ()⟩] "toString" JSVal.undefined
      = some ([("toString", JSVal.undefined)],
          [Event.listenerCall 0 JSVal.undefined (JSVal.obj 905)], none)
    ∧ getProto [("toString", JSVal.undefined)] "toString" (JSVal.num 3)
      = JSVal.undefined :=
  ⟨rfl, rfl⟩
